import Mathlib

/-!
A shallow embedding of the DynamoRIO sample client `api/samples/memtrace_x86.c`,
together with proofs of the testable properties stated in its design
specification.

The embedding covers:
* the trace-record value `mem_ref_t` and its LP64 struct layout;
* the per-thread buffer state `per_thread_t` (`buf_base`, `buf_ptr`,
  `buf_end`, backing storage, log file, lifetime counter `num_refs`);
* the basic-block insertion planner `event_bb_insert` deciding which
  operands get instrumented, and in which order;
* the instruction sequence emitted by `instrument_mem` (as an abstract
  list of emission steps) and its runtime effect on the thread state
  (store the record at the cursor, advance the cursor, divert to the
  flush routine when the cursor reaches the buffer end);
* the flush handler `memtrace` and the thread lifecycle events
  `event_thread_init` / `event_thread_exit`.

Machine addresses are modelled as mathematical integers (`Int`), matching
the C type `ptr_int_t` (signed; signed overflow is undefined behaviour in
C, so the source itself assumes the arithmetic below never overflows).
The buffer capacity `MAX_NUM_MEM_REFS` (8192 in the source) is kept as an
explicit parameter `cap` so that the capacity-2 scenarios of the
specification are instances of the same definitions.
-/

/-- One trace record, `mem_ref_t` in the source:
`{ bool write; void *addr; size_t size; app_pc pc; }`. -/
structure mem_ref_t where
  write : Bool
  addr : Int
  size : Nat
  pc : Int
  deriving DecidableEq, Repr

/-- The all-zero record: what `memset(data->buf_base, 0, MEM_BUF_SIZE)`
leaves in every slot of the backing storage. -/
def zeroRef : mem_ref_t := { write := false, addr := 0, size := 0, pc := 0 }

/-- `offsetof(mem_ref_t, write)` under the LP64 layout used on x86-64. -/
def offsetof_write : Nat := 0

/-- `offsetof(mem_ref_t, addr)` under the LP64 layout. -/
def offsetof_addr : Nat := 8

/-- `offsetof(mem_ref_t, size)` under the LP64 layout. -/
def offsetof_size : Nat := 16

/-- `offsetof(mem_ref_t, pc)` under the LP64 layout. -/
def offsetof_pc : Nat := 24

/-- `sizeof(mem_ref_t)` under the LP64 layout: the cursor advances by this
many bytes per appended record. -/
def sizeof_mem_ref : Nat := 32

/-- `MEM_BUF_SIZE` for a buffer of `cap` records
(`sizeof(mem_ref_t) * MAX_NUM_MEM_REFS` in the source, with
`MAX_NUM_MEM_REFS = 8192`; the record capacity is kept as a parameter). -/
def MEM_BUF_SIZE (cap : Nat) : Nat := sizeof_mem_ref * cap

/-- The value of `MAX_NUM_MEM_REFS` in the source. -/
def MAX_NUM_MEM_REFS : Nat := 8192

/-- One line written to the per-thread log file by `memtrace` in the
`READABLE_TRACE` build: either the `Format:` banner printed at the start
of every flush, or one record entry
`<instr address>,<(r)ead/(w)rite>,<data size>,<data address>`. -/
inductive LogLine where
  | header
  | entry (pc : Int) (write : Bool) (size : Nat) (addr : Int)
  deriving DecidableEq, Repr

/-- The record entries of a log, banner lines dropped: each entry as the
tuple `(pc, write, size, addr)` it carries. -/
def logEntries (l : List LogLine) : List (Int × Bool × Nat × Int) :=
  l.filterMap fun ln =>
    match ln with
    | LogLine.header => none
    | LogLine.entry pc w sz a => some (pc, w, sz, a)

/-- The tuple a record is printed as by `memtrace`:
`dr_fprintf(log, PFX",%c,%d,"PFX"\n", pc, write ? w : r, size, addr)`. -/
def entryOfRef (r : mem_ref_t) : Int × Bool × Nat × Int :=
  (r.pc, r.write, r.size, r.addr)

/-- Per-thread state, `per_thread_t` in the source, plus the thread's log
file contents (the output sink) made explicit.  `buf_end` holds the
negated address of the buffer end; `backing` is the `MEM_BUF_SIZE`
allocation viewed as `cap` record slots. -/
structure per_thread_t where
  buf_ptr : Int
  buf_base : Int
  buf_end : Int
  backing : List mem_ref_t
  log : List LogLine
  num_refs : Nat
  deriving DecidableEq, Repr

/-- `event_thread_init`: allocate the buffer (its fresh contents `mem0`
are whatever the allocator returns), set `buf_ptr := buf_base`,
`buf_end := -(buf_base + MEM_BUF_SIZE)`, `num_refs := 0`, open the log. -/
def event_thread_init (cap : Nat) (base : Int) (mem0 : List mem_ref_t) :
    per_thread_t :=
  { buf_ptr := base
    buf_base := base
    buf_end := -(base + (MEM_BUF_SIZE cap : Int))
    backing := mem0
    log := []
    num_refs := 0 }

/-- `memtrace`: compute the pending count as the pointer difference
`(mem_ref_t *)buf_ptr - (mem_ref_t *)buf_base`, print the `Format:`
banner and one line per pending record (oldest first), zero the backing
storage, add the drained count to the thread's `num_refs`, and reset
`buf_ptr` to `buf_base`. -/
def memtrace (cap : Nat) (s : per_thread_t) : per_thread_t :=
  let n : Int := (s.buf_ptr - s.buf_base) / (sizeof_mem_ref : Int)
  let refs : List mem_ref_t := s.backing.take n.toNat
  { s with
    log := s.log ++ LogLine.header ::
      refs.map (fun r => LogLine.entry r.pc r.write r.size r.addr)
    backing := List.replicate cap zeroRef
    num_refs := s.num_refs + n.toNat
    buf_ptr := s.buf_base }

/-- `memtrace` with the outcome of the log-file writes made explicit:
`ok = false` means every `dr_fprintf` to the sink fails (a failed write
appends nothing to the log).  The second component collects the failure
reports the handler emits; the source discards the return values of
`dr_fprintf` / `dr_write_file`, so no report is ever produced and the
buffer is reset unconditionally. -/
def memtraceChecked (cap : Nat) (ok : Bool) (s : per_thread_t) :
    per_thread_t × List String :=
  let n : Int := (s.buf_ptr - s.buf_base) / (sizeof_mem_ref : Int)
  let refs : List mem_ref_t := s.backing.take n.toNat
  ({ s with
     log := if ok then
         s.log ++ LogLine.header ::
           refs.map (fun r => LogLine.entry r.pc r.write r.size r.addr)
       else s.log
     backing := List.replicate cap zeroRef
     num_refs := s.num_refs + n.toNat
     buf_ptr := s.buf_base },
   [])

/-- Runtime effect of the store half of the fast path injected by
`instrument_mem`: write the four record fields at the cursor (the record
slot at byte offset `buf_ptr - buf_base`) and advance `buf_ptr` by
`sizeof(mem_ref_t)`. -/
def fastPathStore (r : mem_ref_t) (s : per_thread_t) : per_thread_t :=
  let idx : Nat := ((s.buf_ptr - s.buf_base) / (sizeof_mem_ref : Int)).toNat
  { s with
    backing := s.backing.set idx r
    buf_ptr := s.buf_ptr + (sizeof_mem_ref : Int) }

/-- Runtime effect of the overflow check of the fast path: `lea` adds
`buf_end` (the negated end address) to the advanced cursor and `jecxz`
diverts to the clean call (which runs `memtrace`) exactly when the sum is
zero.  Returns the resulting state and whether the flush was invoked. -/
def fastPathCheck (cap : Nat) (s : per_thread_t) : per_thread_t × Bool :=
  if s.buf_ptr + s.buf_end = 0 then (memtrace cap s, true) else (s, false)

/-- One instrumented memory access at runtime: store the record, then the
overflow check, flushing when the buffer became full. -/
def fastPath (cap : Nat) (r : mem_ref_t) (s : per_thread_t) :
    per_thread_t × Bool :=
  fastPathCheck cap (fastPathStore r s)

/-- Run a sequence of instrumented memory accesses on one thread,
counting how many times the fast path diverted to the flush routine. -/
def runAccesses (cap : Nat) (rs : List mem_ref_t) (s : per_thread_t) :
    per_thread_t × Nat :=
  match rs with
  | [] => (s, 0)
  | r :: rest =>
    let p := fastPath cap r s
    let q := runAccesses cap rest p.1
    (q.1, (if p.2 then 1 else 0) + q.2)

/-- `event_thread_exit`: one mandatory final `memtrace`, then (under the
global mutex) add the thread's `num_refs` to the global counter.
Returns the final thread state and the updated global counter. -/
def event_thread_exit (cap : Nat) (s : per_thread_t) (globalRefs : Nat) :
    per_thread_t × Nat :=
  let s1 := memtrace cap s
  (s1, globalRefs + s1.num_refs)

/-- Whole lifetime of one thread that executes the accesses `rs`:
`event_thread_init`, the instrumented accesses, `event_thread_exit`.
Returns the final thread state (including its log), the number of flush
invocations during execution, and the thread's contribution merged into a
global counter starting at `g`. -/
def threadRun (cap : Nat) (base : Int) (mem0 : List mem_ref_t)
    (rs : List mem_ref_t) (g : Nat) : per_thread_t × Nat × Nat :=
  let run := runAccesses cap rs (event_thread_init cap base mem0)
  let fin := event_thread_exit cap run.1 g
  (fin.1, run.2, fin.2)

/-- Total number of `memtrace` invocations over a thread's lifetime: the
diversions during execution plus the one unconditional call in
`event_thread_exit`. -/
def threadFlushInvocations (cap : Nat) (base : Int) (mem0 : List mem_ref_t)
    (rs : List mem_ref_t) : Nat :=
  (runAccesses cap rs (event_thread_init cap base mem0)).2 + 1

/-- Tear down a whole session: each thread (given as buffer base, fresh
buffer contents, and access sequence) runs its lifetime and merges into
the global counter, in the given serialization order of the mutex. -/
def sessionGlobalRefs (cap : Nat)
    (threads : List (Int × List mem_ref_t × List mem_ref_t)) (g : Nat) :
    Nat :=
  match threads with
  | [] => g
  | t :: rest =>
    sessionGlobalRefs cap rest (threadRun cap t.1 t.2.1 t.2.2 g).2.2

/-- One operand of a decoded instruction, as the planner sees it through
the host framework: whether `opnd_is_memory_reference` holds, and the
effective address and byte size
(`drutil_insert_get_mem_addr` / `drutil_opnd_mem_size_in_bytes`) the
injected code records for it at runtime. -/
structure Opnd where
  is_mem : Bool
  addr : Int
  size : Nat
  deriving DecidableEq, Repr

instance : Inhabited Opnd := ⟨{ is_mem := false, addr := 0, size := 0 }⟩

/-- A decoded instruction as the planner sees it: its application pc
(`instr_get_app_pc`, `none` for a meta instruction with a null pc) and
its source and destination operand lists. -/
structure Instr where
  pc : Option Int
  srcs : List Opnd
  dsts : List Opnd
  deriving DecidableEq, Repr

/-- `instr_reads_memory`: some source operand is a memory reference. -/
def instr_reads_memory (ins : Instr) : Bool :=
  ins.srcs.any (fun o => o.is_mem)

/-- `instr_writes_memory`: some destination operand is a memory
reference. -/
def instr_writes_memory (ins : Instr) : Bool :=
  ins.dsts.any (fun o => o.is_mem)

/-- The loop body of `event_bb_insert` over one operand list: for
`i = 0, 1, ...`, if operand `i` is a memory reference, plan an
`instrument_mem(drcontext, bb, instr, i, write)` call. -/
def planLoop (write : Bool) : Nat → List Opnd → List (Nat × Bool)
  | _, [] => []
  | i, o :: rest =>
    (if o.is_mem then [(i, write)] else []) ++ planLoop write (i + 1) rest

/-- `event_bb_insert`: skip instructions whose app pc is null; otherwise
plan one `instrument_mem` call per memory-reference source operand (in
index order, guarded by `instr_reads_memory`), then one per
memory-reference destination operand (in index order, guarded by
`instr_writes_memory`). -/
def event_bb_insert (ins : Instr) : List (Nat × Bool) :=
  match ins.pc with
  | none => []
  | some _ =>
    (if instr_reads_memory ins then planLoop false 0 ins.srcs else []) ++
      (if instr_writes_memory ins then planLoop true 0 ins.dsts else [])

/-- The record the fast path injected by
`instrument_mem(drcontext, bb, where, pos, write)` stores at runtime:
direction from `write`, address and size of operand
`instr_get_dst/src(where, pos)`, and pc from `instr_get_app_pc(where)`. -/
def instrument_mem_record (ins : Instr) (pos : Nat) (write : Bool) :
    mem_ref_t :=
  let ref : Opnd :=
    if write then (ins.dsts.getD pos default)
    else (ins.srcs.getD pos default)
  { write := write
    addr := ref.addr
    size := ref.size
    pc := (ins.pc.getD 0) }

/-- The trace records one instrumented instruction contributes at
runtime, in the order `event_bb_insert` plans them. -/
def plannedRecords (ins : Instr) : List mem_ref_t :=
  (event_bb_insert ins).map (fun pw => instrument_mem_record ins pw.1 pw.2)

/-- One step of the instruction sequence `instrument_mem` emits in front
of the instrumented instruction (each constructor is one
`instrlist_meta_preinsert`d instruction, or one helper call that inserts
its own sequence), in source order:
* `saveReg` / `restoreReg`: `dr_save_reg` / `dr_restore_reg` of a stolen
  register to/from a spill slot;
* `getMemAddr`: `drutil_insert_get_mem_addr` (effective address of the
  operand into `reg1`);
* `readTls`: `drmgr_insert_read_tls_field`;
* `loadBufPtr` / `storeBufPtr`: load/store of `data->buf_ptr`;
* `storeField off`: store of one record field at byte offset `off` from
  the cursor;
* `advanceCursor n`: the `lea` advancing the cursor by `n` bytes;
* `loadBufEnd`: load of `data->buf_end`;
* `leaAddEnd`: the `lea` adding the negated end address to the cursor;
* `jecxzDivert`: the `jecxz` to the clean-call label;
* `jmpSkip`: the `jmp` over the clean call to the restore label;
* `labelMark`: an `INSTR_CREATE_label`;
* `movResumeAddr`: the `mov` of the resumption address into `reg2`;
* `jmpCodeCache`: the `jmp` to the shared code cache (flush routine). -/
inductive EmitStep where
  | saveReg (slot : Nat)
  | getMemAddr
  | readTls
  | loadBufPtr
  | storeField (off : Nat)
  | advanceCursor (n : Nat)
  | storeBufPtr
  | loadBufEnd
  | leaAddEnd
  | jecxzDivert
  | jmpSkip
  | labelMark
  | movResumeAddr
  | jmpCodeCache
  | restoreReg (slot : Nat)
  deriving DecidableEq, Repr

/-- The sequence of steps `instrument_mem` emits, read off the source top
to bottom (`instrlist_meta_preinsert` before `where` keeps emission
order).  The `write` flag only selects which operand is instrumented and
the immediate stored into the `write` field; the emitted shape is the
same. -/
def instrument_mem_steps (write : Bool) : List EmitStep :=
  [ EmitStep.saveReg 2,
    EmitStep.saveReg 3,
    EmitStep.getMemAddr,
    EmitStep.readTls,
    EmitStep.loadBufPtr,
    EmitStep.storeField offsetof_write,
    EmitStep.storeField offsetof_addr,
    EmitStep.storeField offsetof_size,
    EmitStep.storeField offsetof_pc,
    EmitStep.advanceCursor sizeof_mem_ref,
    EmitStep.readTls,
    EmitStep.storeBufPtr,
    EmitStep.loadBufEnd,
    EmitStep.leaAddEnd,
    EmitStep.jecxzDivert,
    EmitStep.jmpSkip,
    EmitStep.labelMark,
    EmitStep.movResumeAddr,
    EmitStep.jmpCodeCache,
    EmitStep.labelMark,
    EmitStep.restoreReg 2,
    EmitStep.restoreReg 3 ]

/-- Project a step onto the record mutation it performs: a field store
(left, the byte offset) or a cursor advance (right, the byte count). -/
def recordOp (e : EmitStep) : Option (Nat ⊕ Nat) :=
  match e with
  | EmitStep.storeField off => some (Sum.inl off)
  | EmitStep.advanceCursor n => some (Sum.inr n)
  | _ => none

/-- The record built for operand `o` of the instrumented instruction at
pc `p`: direction `w`, the operand's effective address and byte size, and
the instruction's pc. -/
def refOfOpnd (w : Bool) (p : Int) (o : Opnd) : mem_ref_t :=
  { write := w, addr := o.addr, size := o.size, pc := p }

/-! ### Concrete example inputs used to exercise the definitions -/

/-- A sample read access: 4 bytes at address 4096, instruction pc 300. -/
def refR : mem_ref_t := { write := false, addr := 4096, size := 4, pc := 300 }

/-- A sample write access: 8 bytes at address 8192, instruction pc 304. -/
def refW : mem_ref_t := { write := true, addr := 8192, size := 8, pc := 304 }

/-- The five-access scenario `(r, w, r, r, w)` of the specification. -/
def accS : List mem_ref_t := [refR, refW, refR, refR, refW]

/-- An instruction with two memory source operands and one memory
destination operand, at pc 100. -/
def insC1 : Instr :=
  { pc := some 100
    srcs := [{ is_mem := true, addr := 1000, size := 4 },
             { is_mem := true, addr := 2000, size := 8 }]
    dsts := [{ is_mem := true, addr := 3000, size := 4 }] }

/-- A meta instruction (null app pc) that both reads and writes memory. -/
def insC9 : Instr :=
  { pc := none
    srcs := [{ is_mem := true, addr := 1000, size := 4 }]
    dsts := [{ is_mem := true, addr := 2000, size := 4 }] }

/-- A memory operand that is both read and written. -/
def opC10 : Opnd := { is_mem := true, addr := 4096, size := 4 }

/-- An instruction whose single memory operand appears among both its
sources and its destinations (a read-modify-write), at pc 200. -/
def insC10 : Instr := { pc := some 200, srcs := [opC10], dsts := [opC10] }

/-- A capacity-2 thread state holding exactly one pending record. -/
def stC8 : per_thread_t :=
  fastPathStore refR (event_thread_init 2 0 (List.replicate 2 zeroRef))

/-! ### Helper lemmas -/

theorem take_succ_set {α : Type} (l : List α) (p : Nat) (r : α)
    (h : p < l.length) :
    (l.set p r).take (p + 1) = l.take p ++ [r] := by
  induction l generalizing p with
  | nil => simp at h
  | cons x xs ih =>
    cases p with
    | zero => simp
    | succ q =>
      simp only [List.set, List.take, List.cons_append]
      rw [ih q (by simpa using h)]

theorem mod_succ_of_lt {n c : Nat} (h : n % c + 1 < c) :
    (n + 1) % c = n % c + 1 := by
  calc (n + 1) % c = (c * (n / c) + n % c + 1) % c := by
        rw [Nat.div_add_mod]
    _ = (c * (n / c) + (n % c + 1)) % c := by rw [Nat.add_assoc]
    _ = (n % c + 1) % c := Nat.mul_add_mod c (n / c) (n % c + 1)
    _ = n % c + 1 := Nat.mod_eq_of_lt h

theorem mod_succ_of_eq {n c : Nat} (h : n % c + 1 = c) :
    (n + 1) % c = 0 := by
  calc (n + 1) % c = (c * (n / c) + n % c + 1) % c := by
        rw [Nat.div_add_mod]
    _ = (c * (n / c) + (n % c + 1)) % c := by rw [Nat.add_assoc]
    _ = (n % c + 1) % c := Nat.mul_add_mod c (n / c) (n % c + 1)
    _ = c % c := by rw [h]
    _ = 0 := Nat.mod_self c

theorem logEntries_append (l1 l2 : List LogLine) :
    logEntries (l1 ++ l2) = logEntries l1 ++ logEntries l2 :=
  List.filterMap_append l1 l2 _

theorem logEntries_header_cons (l : List LogLine) :
    logEntries (LogLine.header :: l) = logEntries l := rfl

theorem logEntries_entry_cons (pc : Int) (w : Bool) (sz : Nat) (a : Int)
    (l : List LogLine) :
    logEntries (LogLine.entry pc w sz a :: l) = (pc, w, sz, a) :: logEntries l :=
  rfl

theorem logEntries_flush_chunk (refs : List mem_ref_t) :
    logEntries (LogLine.header ::
        refs.map (fun r => LogLine.entry r.pc r.write r.size r.addr)) =
      refs.map entryOfRef := by
  rw [logEntries_header_cons]
  induction refs with
  | nil => rfl
  | cons r rs ih =>
    simp only [List.map_cons, logEntries_entry_cons, ih]
    simp [entryOfRef]

/-! ### The buffer invariant threaded through a thread's execution

`StateInv cap base done s` says: starting from `event_thread_init` with
buffer base `base` and running the instrumented accesses `done`, the
thread is now in state `s`.  Writing `n = done.length` and
`p = n % cap`, the accesses not yet flushed are the last `p` ones, held
in the first `p` slots of the backing storage, the cursor sits `p`
records past the base, `num_refs` counts the flushed accesses, and the
log holds exactly the flushed accesses in program order. -/

structure StateInv (cap : Nat) (base : Int) (done : List mem_ref_t)
    (s : per_thread_t) : Prop where
  hbase : s.buf_base = base
  hend : s.buf_end = -(base + (MEM_BUF_SIZE cap : Int))
  hlen : s.backing.length = cap
  hptr : s.buf_ptr = base + (sizeof_mem_ref : Int) * ((done.length % cap : Nat) : Int)
  hcnt : s.num_refs = done.length - done.length % cap
  hlog : logEntries s.log =
    (done.take (done.length - done.length % cap)).map entryOfRef
  hpend : s.backing.take (done.length % cap) =
    done.drop (done.length - done.length % cap)

theorem stateInv_init (cap : Nat) (base : Int) (mem0 : List mem_ref_t)
    (hm : mem0.length = cap) :
    StateInv cap base [] (event_thread_init cap base mem0) := by
  refine ⟨rfl, rfl, hm, ?_, rfl, rfl, rfl⟩
  simp [event_thread_init]

theorem stateInv_fastPath (cap : Nat) (base : Int) (done : List mem_ref_t)
    (r : mem_ref_t) (s : per_thread_t) (hc : 0 < cap)
    (hs : StateInv cap base done s) :
    StateInv cap base (done ++ [r]) (fastPath cap r s).1 ∧
      ((fastPath cap r s).2 = true ↔ (done.length + 1) % cap = 0) := by
  obtain ⟨hbase, hend, hlen, hptr, hcnt, hlog, hpend⟩ := hs
  obtain ⟨ptr, bas, bend, mem, lg, nr⟩ := s
  dsimp only at hbase hend hlen hptr hcnt hlog hpend
  have hbase2 : base = bas := hbase.symm
  subst hbase2 hend hptr hcnt
  have hp : done.length % cap < cap := Nat.mod_lt _ hc
  have hpn : done.length % cap ≤ done.length := Nat.mod_le _ _
  have h32 : ((sizeof_mem_ref : Nat) : Int) ≠ 0 := by decide
  have hdiff : (base + (sizeof_mem_ref : Int) * (done.length % cap : Nat) - base) /
      (sizeof_mem_ref : Int) = ((done.length % cap : Nat) : Int) := by
    rw [add_sub_cancel_left, Int.mul_ediv_cancel_left _ h32]
  have hcond : (base + (sizeof_mem_ref : Int) * (done.length % cap : Nat) +
        (sizeof_mem_ref : Int) + -(base + (MEM_BUF_SIZE cap : Int)) = 0) ↔
      done.length % cap + 1 = cap := by
    simp only [MEM_BUF_SIZE, sizeof_mem_ref]
    push_cast
    omega
  simp only [fastPath, fastPathStore, fastPathCheck, hdiff, Int.toNat_natCast]
  by_cases hfull : done.length % cap + 1 = cap
  · rw [if_pos (hcond.mpr hfull)]
    have hm1 : (done.length + 1) % cap = 0 := mod_succ_of_eq hfull
    have hdiff2 : (base + (sizeof_mem_ref : Int) * (done.length % cap : Nat) +
        (sizeof_mem_ref : Int) - base) / (sizeof_mem_ref : Int) =
        ((done.length % cap + 1 : Nat) : Int) := by
      have he : base + (sizeof_mem_ref : Int) * (done.length % cap : Nat) +
          (sizeof_mem_ref : Int) - base =
          (sizeof_mem_ref : Int) * ((done.length % cap + 1 : Nat) : Int) := by
        push_cast
        ring
      rw [he, Int.mul_ediv_cancel_left _ h32]
    simp only [memtrace, hdiff2, Int.toNat_natCast]
    refine ⟨⟨rfl, rfl, by simp, ?_, ?_, ?_, ?_⟩, by simp [hm1]⟩
    · simp [hm1]
    · simp only [List.length_append, List.length_cons, List.length_nil, hm1]
      omega
    · rw [take_succ_set mem _ r (by rw [hlen]; exact hp), hpend,
        logEntries_append, hlog, logEntries_flush_chunk]
      simp only [List.length_append, List.length_cons, List.length_nil,
        Nat.zero_add, hm1, Nat.sub_zero]
      have htake : List.take (done.length + 1) (done ++ [r]) = done ++ [r] := by
        apply List.take_of_length_le
        simp only [List.length_append, List.length_cons, List.length_nil]
        omega
      rw [htake, ← List.map_append, ← List.append_assoc, List.take_append_drop]
    · simp only [List.length_append, List.length_cons, List.length_nil,
        Nat.zero_add, hm1, Nat.sub_zero]
      simp [List.drop_of_length_le]
  · rw [if_neg (fun h => hfull (hcond.mp h))]
    have hlt : done.length % cap + 1 < cap := by omega
    have hm1 : (done.length + 1) % cap = done.length % cap + 1 := mod_succ_of_lt hlt
    have hsub : done.length + 1 - (done.length % cap + 1) =
        done.length - done.length % cap := by omega
    refine ⟨⟨rfl, rfl, by simp [hlen], ?_, ?_, ?_, ?_⟩, by simp [hm1]⟩
    · simp only [List.length_append, List.length_cons, List.length_nil, hm1]
      push_cast
      ring
    · simp only [List.length_append, List.length_cons, List.length_nil, hm1]
      omega
    · simp only [List.length_append, List.length_cons, List.length_nil, hm1,
        Nat.add_zero]
      rw [hsub, List.take_append_of_le_length (by omega), hlog]
    · simp only [List.length_append, List.length_cons, List.length_nil, hm1,
        Nat.add_zero]
      rw [hsub, take_succ_set mem _ r (by rw [hlen]; exact hp), hpend,
        List.drop_append_of_le_length (by omega)]

theorem stateInv_run (cap : Nat) (base : Int) (rs : List mem_ref_t) :
    ∀ (done : List mem_ref_t) (s : per_thread_t), 0 < cap →
      StateInv cap base done s →
      StateInv cap base (done ++ rs) (runAccesses cap rs s).1 ∧
        (runAccesses cap rs s).2 + done.length / cap =
          (done.length + rs.length) / cap := by
  induction rs with
  | nil =>
    intro done s hc hs
    constructor
    · simpa using hs
    · simp [runAccesses]
  | cons r rest ih =>
    intro done s hc hs
    obtain ⟨hs1, hflag⟩ := stateInv_fastPath cap base done r s hc hs
    obtain ⟨hs2, hcount⟩ := ih (done ++ [r]) (fastPath cap r s).1 hc hs1
    constructor
    · simpa [List.append_assoc] using hs2
    · simp only [runAccesses]
      simp only [List.length_append, List.length_cons, List.length_nil,
        Nat.zero_add] at hcount
      rw [show done.length + (r :: rest).length =
        done.length + 1 + rest.length from by simp; omega]
      cases hb : (fastPath cap r s).2 with
      | false =>
        have hmod : ¬ (done.length + 1) % cap = 0 := by
          intro h
          exact absurd (hflag.mpr h) (by simp [hb])
        have hdvd : ¬ cap ∣ done.length + 1 := by
          rw [Nat.dvd_iff_mod_eq_zero]
          exact hmod
        have hdq : (done.length + 1) / cap = done.length / cap :=
          Nat.succ_div_of_not_dvd hdvd
        rw [hdq] at hcount
        simp only [Bool.false_eq_true, if_false]
        omega
      | true =>
        have hmod : (done.length + 1) % cap = 0 := hflag.mp hb
        have hdvd : cap ∣ done.length + 1 := by
          rw [Nat.dvd_iff_mod_eq_zero]
          exact hmod
        have hdq : (done.length + 1) / cap = done.length / cap + 1 :=
          Nat.succ_div_of_dvd hdvd
        rw [hdq] at hcount
        simp only [eq_self_iff_true, if_true]
        omega

theorem memtrace_drain (cap : Nat) (s : per_thread_t) (p : Nat)
    (h : s.buf_ptr = s.buf_base + (sizeof_mem_ref : Int) * (p : Int)) :
    memtrace cap s =
      { buf_ptr := s.buf_base
        buf_base := s.buf_base
        buf_end := s.buf_end
        backing := List.replicate cap zeroRef
        log := s.log ++ LogLine.header ::
          (s.backing.take p).map (fun r => LogLine.entry r.pc r.write r.size r.addr)
        num_refs := s.num_refs + p } := by
  obtain ⟨ptr, bas, bend, mem, lg, nr⟩ := s
  dsimp only at h ⊢
  subst h
  have h32 : ((sizeof_mem_ref : Nat) : Int) ≠ 0 := by decide
  have hdiff : (bas + (sizeof_mem_ref : Int) * (p : Int) - bas) /
      (sizeof_mem_ref : Int) = (p : Int) := by
    rw [add_sub_cancel_left, Int.mul_ediv_cancel_left _ h32]
  simp only [memtrace, hdiff, Int.toNat_natCast]

theorem stateInv_memtrace (cap : Nat) (base : Int) (done : List mem_ref_t)
    (s : per_thread_t) (hs : StateInv cap base done s) :
    logEntries (memtrace cap s).log = done.map entryOfRef ∧
      (memtrace cap s).num_refs = done.length ∧
      (memtrace cap s).buf_ptr = base ∧
      (memtrace cap s).buf_base = base ∧
      (memtrace cap s).buf_end = -(base + (MEM_BUF_SIZE cap : Int)) ∧
      (memtrace cap s).backing = List.replicate cap zeroRef := by
  obtain ⟨hbase, hend, hlen, hptr, hcnt, hlog, hpend⟩ := hs
  have hpn : done.length % cap ≤ done.length := Nat.mod_le _ _
  rw [memtrace_drain cap s (done.length % cap) (by rw [hptr, hbase])]
  refine ⟨?_, by dsimp only; rw [hcnt]; omega, hbase, hbase, hend, rfl⟩
  dsimp only
  rw [hpend, logEntries_append, hlog, logEntries_flush_chunk,
    ← List.map_append, List.take_append_drop]

/-! ### Planner correspondence lemmas -/

theorem getD_append_cons {α : Type} [Inhabited α] (pre rest : List α) (o : α) :
    (pre ++ o :: rest).getD pre.length default = o := by
  rw [List.getD_eq_getElem?_getD, List.getElem?_append_right (Nat.le_refl _)]
  simp

theorem planLoop_srcs_map (ins : Instr) (pre rest : List Opnd)
    (hsplit : ins.srcs = pre ++ rest) :
    (planLoop false pre.length rest).map
        (fun pw => instrument_mem_record ins pw.1 pw.2) =
      (rest.filter (fun o => o.is_mem)).map
        (refOfOpnd false (ins.pc.getD 0)) := by
  induction rest generalizing pre with
  | nil => rfl
  | cons o rrest ih =>
    have hh : ins.srcs.getD pre.length default = o := by
      rw [hsplit]
      exact getD_append_cons pre rrest o
    have htail := ih (pre ++ [o]) (by rw [hsplit]; simp)
    simp only [List.length_append, List.length_cons, List.length_nil,
      Nat.zero_add] at htail
    simp only [planLoop, List.map_append, htail, List.filter_cons]
    by_cases ho : o.is_mem
    · simp only [ho, if_true, List.map_cons, List.map_nil, List.singleton_append,
        List.cons_append, List.nil_append]
      rw [show instrument_mem_record ins pre.length false =
        refOfOpnd false (ins.pc.getD 0) (ins.srcs.getD pre.length default)
        from rfl, hh]
    · simp [ho]

theorem planLoop_dsts_map (ins : Instr) (pre rest : List Opnd)
    (hsplit : ins.dsts = pre ++ rest) :
    (planLoop true pre.length rest).map
        (fun pw => instrument_mem_record ins pw.1 pw.2) =
      (rest.filter (fun o => o.is_mem)).map
        (refOfOpnd true (ins.pc.getD 0)) := by
  induction rest generalizing pre with
  | nil => rfl
  | cons o rrest ih =>
    have hh : ins.dsts.getD pre.length default = o := by
      rw [hsplit]
      exact getD_append_cons pre rrest o
    have htail := ih (pre ++ [o]) (by rw [hsplit]; simp)
    simp only [List.length_append, List.length_cons, List.length_nil,
      Nat.zero_add] at htail
    simp only [planLoop, List.map_append, htail, List.filter_cons]
    by_cases ho : o.is_mem
    · simp only [ho, if_true, List.map_cons, List.map_nil, List.singleton_append,
        List.cons_append, List.nil_append]
      rw [show instrument_mem_record ins pre.length true =
        refOfOpnd true (ins.pc.getD 0) (ins.dsts.getD pre.length default)
        from rfl, hh]
    · simp [ho]

theorem filter_eq_nil_of_no_reads (ins : Instr)
    (h : instr_reads_memory ins = false) :
    ins.srcs.filter (fun o => o.is_mem) = [] := by
  rw [List.filter_eq_nil_iff]
  intro a ha
  simp only [instr_reads_memory, List.any_eq_false] at h
  simp [h a ha]

theorem filter_eq_nil_of_no_writes (ins : Instr)
    (h : instr_writes_memory ins = false) :
    ins.dsts.filter (fun o => o.is_mem) = [] := by
  rw [List.filter_eq_nil_iff]
  intro a ha
  simp only [instr_writes_memory, List.any_eq_false] at h
  simp [h a ha]

theorem plannedRecords_eq (ins : Instr) (p : Int) (hpc : ins.pc = some p) :
    plannedRecords ins =
      (ins.srcs.filter (fun o => o.is_mem)).map (refOfOpnd false p) ++
        (ins.dsts.filter (fun o => o.is_mem)).map (refOfOpnd true p) := by
  unfold plannedRecords event_bb_insert
  rw [hpc]
  dsimp only
  rw [List.map_append]
  have hsrc : (if instr_reads_memory ins then planLoop false 0 ins.srcs
        else []).map (fun pw => instrument_mem_record ins pw.1 pw.2) =
      (ins.srcs.filter (fun o => o.is_mem)).map (refOfOpnd false p) := by
    by_cases hr : instr_reads_memory ins
    · rw [if_pos hr,
        show (0 : Nat) = ([] : List Opnd).length from rfl,
        planLoop_srcs_map ins [] ins.srcs rfl, hpc]
      rfl
    · rw [if_neg hr, filter_eq_nil_of_no_reads ins (by simpa using hr)]
      rfl
  have hdst : (if instr_writes_memory ins then planLoop true 0 ins.dsts
        else []).map (fun pw => instrument_mem_record ins pw.1 pw.2) =
      (ins.dsts.filter (fun o => o.is_mem)).map (refOfOpnd true p) := by
    by_cases hw : instr_writes_memory ins
    · rw [if_pos hw,
        show (0 : Nat) = ([] : List Opnd).length from rfl,
        planLoop_dsts_map ins [] ins.dsts rfl, hpc]
      rfl
    · rw [if_neg hw, filter_eq_nil_of_no_writes ins (by simpa using hw)]
      rfl
  rw [hsrc, hdst]

/-! ### Thread lifetime helper lemmas -/

theorem threadRun_spec (cap : Nat) (base : Int) (mem0 rs : List mem_ref_t)
    (g : Nat) (hc : 0 < cap) (hm : mem0.length = cap) :
    logEntries (threadRun cap base mem0 rs g).1.log = rs.map entryOfRef ∧
      (threadRun cap base mem0 rs g).1.num_refs = rs.length ∧
      (threadRun cap base mem0 rs g).2.2 = g + rs.length ∧
      (threadRun cap base mem0 rs g).2.1 = rs.length / cap ∧
      (threadRun cap base mem0 rs g).1.buf_ptr = base := by
  have h0 := stateInv_init cap base mem0 hm
  have h1 := stateInv_run cap base rs [] (event_thread_init cap base mem0)
    hc h0
  simp only [List.nil_append, List.length_nil, Nat.zero_div, Nat.add_zero,
    Nat.zero_add] at h1
  have h2 := stateInv_memtrace cap base rs _ h1.1
  simp only [threadRun, event_thread_exit]
  exact ⟨h2.1, h2.2.1, by rw [h2.2.1], h1.2, h2.2.2.1⟩

theorem sessionGlobalRefs_sum (cap : Nat) (hc : 0 < cap)
    (threads : List (Int × List mem_ref_t × List mem_ref_t)) (g : Nat)
    (hmem : ∀ t ∈ threads, t.2.1.length = cap) :
    sessionGlobalRefs cap threads g =
      g + (threads.map (fun t => t.2.2.length)).sum := by
  induction threads generalizing g with
  | nil => simp [sessionGlobalRefs]
  | cons t rest ih =>
    have hmerge := (threadRun_spec cap t.1 t.2.1 t.2.2 g hc
      (hmem t (List.mem_cons_self t rest))).2.2.1
    simp only [sessionGlobalRefs, hmerge]
    rw [ih (g + t.2.2.length) (fun u hu => hmem u (List.mem_cons_of_mem t hu))]
    simp [Nat.add_assoc]

/-! ### The claims -/

/-- Claim C1: for every instrumented instruction (non-null app pc) with
`k` memory-reference operands, exactly `k` trace records are planned,
ordered by source-operand index first and then destination-operand
index, and every planned record carries the instruction's app pc as its
`origin_pc`. -/
theorem claim_C1 (ins : Instr) (p : Int) (hpc : ins.pc = some p) :
    plannedRecords ins =
      (ins.srcs.filter (fun o => o.is_mem)).map (refOfOpnd false p) ++
        (ins.dsts.filter (fun o => o.is_mem)).map (refOfOpnd true p) ∧
      (plannedRecords ins).length =
        (ins.srcs.filter (fun o => o.is_mem)).length +
          (ins.dsts.filter (fun o => o.is_mem)).length ∧
      ∀ r ∈ plannedRecords ins, r.pc = p := by
  have he := plannedRecords_eq ins p hpc
  refine ⟨he, by rw [he]; simp, ?_⟩
  intro r hr
  rw [he] at hr
  rcases List.mem_append.mp hr with h | h
  · obtain ⟨o, -, rfl⟩ := List.mem_map.mp h
    rfl
  · obtain ⟨o, -, rfl⟩ := List.mem_map.mp h
    rfl

/-- Witness for C1 at the specification's scenario: two memory source
operands and one memory destination operand yield exactly the three
records `[src0, src1, dst0]`, all with `origin_pc = 100`. -/
theorem claim_C1_witness :
    plannedRecords insC1 =
      [refOfOpnd false 100 { is_mem := true, addr := 1000, size := 4 },
        refOfOpnd false 100 { is_mem := true, addr := 2000, size := 8 },
        refOfOpnd true 100 { is_mem := true, addr := 3000, size := 4 }] ∧
      (plannedRecords insC1).length = 3 ∧
      ∀ r ∈ plannedRecords insC1, r.pc = 100 := by
  have h := claim_C1 insC1 100 rfl
  refine ⟨by rw [h.1]; rfl, by rw [h.2.1]; rfl, h.2.2⟩

/-- Claim C9: an instruction whose app pc is null is skipped entirely by
the planner — no `instrument_mem` call is planned and no record is
produced for it, whatever its operands are. -/
theorem claim_C9 (ins : Instr) (h : ins.pc = none) :
    event_bb_insert ins = [] ∧ plannedRecords ins = [] := by
  have h1 : event_bb_insert ins = [] := by
    unfold event_bb_insert
    rw [h]
  exact ⟨h1, by unfold plannedRecords; rw [h1]; exact List.map_nil⟩

/-- Witness for C9: a null-pc instruction that both reads and writes
memory still gets no instrumentation. -/
theorem claim_C9_witness :
    (event_bb_insert insC9 = [] ∧ plannedRecords insC9 = []) ∧
      instr_reads_memory insC9 = true ∧ instr_writes_memory insC9 = true :=
  ⟨claim_C9 insC9 rfl, by decide, by decide⟩

/-- Claim C10: a memory operand appearing among both the sources and the
destinations of an instrumented instruction yields a read record and
then, later in the planned order, a write record, both carrying the
operand's address and size and the instruction's pc. -/
theorem claim_C10 (ins : Instr) (p : Int) (o : Opnd) (hpc : ins.pc = some p)
    (hmem : o.is_mem = true) (hsrc : o ∈ ins.srcs) (hdst : o ∈ ins.dsts) :
    List.Sublist [refOfOpnd false p o, refOfOpnd true p o]
        (plannedRecords ins) ∧
      refOfOpnd false p o =
        { write := false, addr := o.addr, size := o.size, pc := p } ∧
      refOfOpnd true p o =
        { write := true, addr := o.addr, size := o.size, pc := p } := by
  refine ⟨?_, rfl, rfl⟩
  rw [plannedRecords_eq ins p hpc]
  have ha : refOfOpnd false p o ∈
      (ins.srcs.filter (fun u => u.is_mem)).map (refOfOpnd false p) :=
    List.mem_map_of_mem _ (List.mem_filter.mpr ⟨hsrc, hmem⟩)
  have hb : refOfOpnd true p o ∈
      (ins.dsts.filter (fun u => u.is_mem)).map (refOfOpnd true p) :=
    List.mem_map_of_mem _ (List.mem_filter.mpr ⟨hdst, hmem⟩)
  exact (List.singleton_sublist.mpr ha).append (List.singleton_sublist.mpr hb)

/-- Witness for C10: a read-modify-write operand produces its read record
before its write record. -/
theorem claim_C10_witness :
    List.Sublist [refOfOpnd false 200 opC10, refOfOpnd true 200 opC10]
      (plannedRecords insC10) :=
  (claim_C10 insC10 200 opC10 rfl rfl (by decide) (by decide)).1

/-- Claim C4: flushing a buffer with zero pending records appends no
record entry to the sink, leaves the lifetime counter unchanged, and
leaves the cursor at the base. -/
theorem claim_C4 (cap : Nat) (s : per_thread_t) (h : s.buf_ptr = s.buf_base) :
    logEntries (memtrace cap s).log = logEntries s.log ∧
      (memtrace cap s).num_refs = s.num_refs ∧
      (memtrace cap s).buf_ptr = s.buf_base := by
  have hd := memtrace_drain cap s 0 (by rw [h]; simp)
  rw [hd]
  refine ⟨?_, by dsimp only; omega, rfl⟩
  dsimp only
  rw [logEntries_append, logEntries_header_cons]
  simp [List.take_zero, show logEntries ([] : List LogLine) = [] from rfl]

/-- Witness for C4 on a freshly initialised capacity-2 buffer. -/
theorem claim_C4_witness :
    logEntries (memtrace 2 (event_thread_init 2 5 (List.replicate 2 zeroRef))).log =
        logEntries (event_thread_init 2 5 (List.replicate 2 zeroRef)).log ∧
      (memtrace 2 (event_thread_init 2 5 (List.replicate 2 zeroRef))).num_refs =
        (event_thread_init 2 5 (List.replicate 2 zeroRef)).num_refs ∧
      (memtrace 2 (event_thread_init 2 5 (List.replicate 2 zeroRef))).buf_ptr =
        (event_thread_init 2 5 (List.replicate 2 zeroRef)).buf_base :=
  claim_C4 2 (event_thread_init 2 5 (List.replicate 2 zeroRef)) rfl

/-- Claim C5: the record layout fixes the field order
`write < addr < size < pc` within one record, the fast path emitted by
`instrument_mem` stores exactly those four fields in exactly that order
and then advances the cursor by exactly `sizeof(mem_ref_t)`, and at
runtime the store half writes the record at the cursor's slot and bumps
`buf_ptr` by one record size. -/
theorem claim_C5 (w : Bool) (r : mem_ref_t) (s : per_thread_t) :
    (offsetof_write < offsetof_addr ∧ offsetof_addr < offsetof_size ∧
        offsetof_size < offsetof_pc ∧ offsetof_pc < sizeof_mem_ref) ∧
      (instrument_mem_steps w).filterMap recordOp =
        [Sum.inl offsetof_write, Sum.inl offsetof_addr,
          Sum.inl offsetof_size, Sum.inl offsetof_pc,
          Sum.inr sizeof_mem_ref] ∧
      (fastPathStore r s).backing =
        s.backing.set
          (((s.buf_ptr - s.buf_base) / (sizeof_mem_ref : Int)).toNat) r ∧
      (fastPathStore r s).buf_ptr = s.buf_ptr + (sizeof_mem_ref : Int) := by
  refine ⟨by decide, ?_, rfl, rfl⟩
  cases w <;> rfl

/-- Counterexample to C2 as stated: with capacity 2 and exactly 2
accesses (`n mod c = 0`), `event_thread_exit` still invokes the teardown
flush unconditionally, so the thread sees 2 flush invocations in total,
while `floor(n/c)` plus a final flush present only when `n mod c > 0`
predicts `1 + 0 = 1`. -/
theorem claim_C2_counterexample :
    threadFlushInvocations 2 0 (List.replicate 2 zeroRef) [refR, refW] = 2 ∧
      2 / 2 + (if 2 % 2 > 0 then 1 else 0) = 1 := by
  constructor
  · decide
  · decide

/-- Claim C2 (amended): the fast path diverts to the flush routine
exactly `floor(n/c)` times during the execution of `n` accesses, and the
teardown flush is invoked unconditionally, for `floor(n/c) + 1` flush
invocations in total over the thread's lifetime. -/
theorem claim_C2 (cap : Nat) (base : Int) (mem0 rs : List mem_ref_t)
    (hc : 0 < cap) (hm : mem0.length = cap) :
    (runAccesses cap rs (event_thread_init cap base mem0)).2 =
        rs.length / cap ∧
      threadFlushInvocations cap base mem0 rs = rs.length / cap + 1 := by
  have h := stateInv_run cap base rs [] (event_thread_init cap base mem0) hc
    (stateInv_init cap base mem0 hm)
  simp only [List.length_nil, Nat.zero_div, Nat.add_zero, Nat.zero_add] at h
  exact ⟨h.2, by unfold threadFlushInvocations; rw [h.2]⟩

/-- Witness for C2 (amended) at the five-access capacity-2 scenario:
2 diversions during execution, 3 flush invocations in total. -/
theorem claim_C2_witness :
    (runAccesses 2 accS (event_thread_init 2 0 (List.replicate 2 zeroRef))).2 =
        2 ∧
      threadFlushInvocations 2 0 (List.replicate 2 zeroRef) accS = 3 := by
  have h := claim_C2 2 0 (List.replicate 2 zeroRef) accS (by decide) (by decide)
  constructor
  · rw [h.1]
    decide
  · rw [h.2]
    decide

/-- Claim C3: each flush writes exactly the records between base and
cursor to the sink, oldest first, as entries carrying
`(origin_pc, direction, size, address)`; it adds the drained count to
the lifetime counter and resets the buffer (cursor to base, storage
zeroed).  Consequently, a thread's flushed output over its whole
lifetime reproduces, in program order, the accesses it executed. -/
theorem claim_C3 :
    (∀ (cap : Nat) (s : per_thread_t) (p : Nat),
        s.buf_ptr = s.buf_base + (sizeof_mem_ref : Int) * (p : Int) →
        (memtrace cap s).log = s.log ++ LogLine.header ::
            (s.backing.take p).map
              (fun r => LogLine.entry r.pc r.write r.size r.addr) ∧
          (memtrace cap s).num_refs = s.num_refs + p ∧
          (memtrace cap s).buf_ptr = s.buf_base ∧
          (memtrace cap s).backing = List.replicate cap zeroRef) ∧
      ∀ (cap : Nat) (base : Int) (mem0 rs : List mem_ref_t) (g : Nat),
        0 < cap → mem0.length = cap →
        logEntries (threadRun cap base mem0 rs g).1.log =
          rs.map entryOfRef := by
  constructor
  · intro cap s p h
    rw [memtrace_drain cap s p h]
    exact ⟨rfl, rfl, rfl, rfl⟩
  · intro cap base mem0 rs g hc hm
    exact (threadRun_spec cap base mem0 rs g hc hm).1

/-- Witness for C3: the five-access scenario round-trips through the
log, and flushing a one-record buffer bumps the counter by one. -/
theorem claim_C3_witness :
    logEntries (threadRun 2 0 (List.replicate 2 zeroRef) accS 0).1.log =
        accS.map entryOfRef ∧
      (memtrace 2 stC8).num_refs = stC8.num_refs + 1 :=
  ⟨claim_C3.2 2 0 (List.replicate 2 zeroRef) accS 0 (by decide) (by decide),
    (claim_C3.1 2 stC8 1 (by decide)).2.1⟩

/-- Claim C6: `buf_end = -(base + capacity * record_size)` is
established by `event_thread_init` and untouched by the fast path (with
or without its flush) and by `memtrace` (flush and reset); under that
equality, the fast path's add-and-compare-to-zero test holds exactly
when the cursor has reached `base + capacity * record_size`. -/
theorem claim_C6 (cap : Nat) (base : Int) (mem0 : List mem_ref_t)
    (r : mem_ref_t) (s : per_thread_t) :
    (event_thread_init cap base mem0).buf_end =
        -(base + (MEM_BUF_SIZE cap : Int)) ∧
      (fastPath cap r s).1.buf_end = s.buf_end ∧
      (fastPath cap r s).1.buf_base = s.buf_base ∧
      (memtrace cap s).buf_end = s.buf_end ∧
      (memtrace cap s).buf_base = s.buf_base ∧
      (s.buf_end = -(s.buf_base + (MEM_BUF_SIZE cap : Int)) →
        (s.buf_ptr + s.buf_end = 0 ↔
          s.buf_ptr = s.buf_base + (MEM_BUF_SIZE cap : Int))) := by
  refine ⟨rfl, ?_, ?_, rfl, rfl, ?_⟩
  · unfold fastPath fastPathCheck
    split <;> rfl
  · unfold fastPath fastPathCheck
    split <;> rfl
  · intro h
    rw [h]
    omega

/-- Witness for C6: on the capacity-2 one-pending-record state, the
overflow test correctly reports "not full". -/
theorem claim_C6_witness :
    stC8.buf_ptr + stC8.buf_end = 0 ↔
      stC8.buf_ptr = stC8.buf_base + (MEM_BUF_SIZE 2 : Int) :=
  (claim_C6 2 0 (List.replicate 2 zeroRef) refR stC8).2.2.2.2.2 (by decide)

/-- Claim C7: teardown performs the mandatory final flush first and then
merges the thread's lifetime counter (which by then counts every access
the thread executed) into the global aggregate; after all threads have
torn down, the global aggregate is the sum over threads of the records
they emitted. -/
theorem claim_C7 :
    (∀ (cap : Nat) (base : Int) (mem0 rs : List mem_ref_t) (g : Nat),
        0 < cap → mem0.length = cap →
        (threadRun cap base mem0 rs g).1.num_refs = rs.length ∧
          (threadRun cap base mem0 rs g).2.2 = g + rs.length) ∧
      ∀ (cap : Nat) (threads : List (Int × List mem_ref_t × List mem_ref_t)),
        0 < cap → (∀ t ∈ threads, t.2.1.length = cap) →
        sessionGlobalRefs cap threads 0 =
          (threads.map (fun t => t.2.2.length)).sum := by
  constructor
  · intro cap base mem0 rs g hc hm
    have h := threadRun_spec cap base mem0 rs g hc hm
    exact ⟨h.2.1, h.2.2.1⟩
  · intro cap threads hc hmem
    rw [sessionGlobalRefs_sum cap hc threads 0 hmem]
    exact Nat.zero_add _

/-- Witness for C7 at the specification's scenario: one capacity-2
thread executing the five accesses `(r, w, r, r, w)` leaves a global
aggregate of 5, equal to the thread's lifetime counter. -/
theorem claim_C7_witness :
    sessionGlobalRefs 2 [((0 : Int), List.replicate 2 zeroRef, accS)] 0 = 5 ∧
      (threadRun 2 0 (List.replicate 2 zeroRef) accS 0).1.num_refs = 5 := by
  have hA := claim_C7.1 2 0 (List.replicate 2 zeroRef) accS 0
    (by decide) (by decide)
  have hB := claim_C7.2 2 [((0 : Int), List.replicate 2 zeroRef, accS)]
    (by decide)
    (by intro t ht; rw [List.mem_singleton] at ht; subst ht; decide)
  constructor
  · rw [hB]
    decide
  · rw [hA.1]
    decide

/-- Counterexample to C8 as stated: flushing a buffer that holds one
pending record through a sink whose writes all fail produces no failure
report at all — `memtrace` discards the write results — contradicting
"the failure is reported". -/
theorem claim_C8_counterexample :
    (memtraceChecked 2 false stC8).2 = [] ∧
      stC8.buf_ptr ≠ stC8.buf_base :=
  ⟨rfl, by decide⟩

/-- Claim C8 (amended): an output-sink write failure during a flush is
silently ignored — no failure report is produced — the flush is
non-fatal, and the buffer is nevertheless reset (cursor to base, storage
zeroed, `buf_end` untouched), so the fast path stays correctly bounded;
with a healthy sink the checked flush coincides with `memtrace`. -/
theorem claim_C8 (cap : Nat) (ok : Bool) (s : per_thread_t) :
    (memtraceChecked cap ok s).2 = [] ∧
      (memtraceChecked cap ok s).1.buf_ptr = s.buf_base ∧
      (memtraceChecked cap ok s).1.backing = List.replicate cap zeroRef ∧
      (memtraceChecked cap ok s).1.buf_end = s.buf_end ∧
      (memtraceChecked cap ok s).1.num_refs = s.num_refs +
        ((s.buf_ptr - s.buf_base) / (sizeof_mem_ref : Int)).toNat ∧
      (memtraceChecked cap true s).1 = memtrace cap s :=
  ⟨rfl, rfl, rfl, rfl, rfl, rfl⟩
